import Mathlib

/-!
# Verification of the gosml SML decoder

Shallow embedding of the gosml repository (Go): frame extraction
(`readFile`), the TLV parser, the message decoder, the OBIS dispatch
trie (`obisGroupCallback`), and the driver loop (`Read`), together with
theorems settling the specification claims.

Bytes are modelled as `Nat` (values 0..255), byte slices as `List Nat`.
A byte source is a list of bytes followed by a terminal condition:
clean end-of-stream (Go `io.EOF`) or an underlying I/O failure.
Fallible Go code is modelled with `Except`; a Go panic inside the
parser (index out of range) is modelled as a parse error, which the
driver loop absorbs exactly as the `recover` wrapper in `Read` does.
-/

deriving instance DecidableEq for Except

namespace Gosml

/-- What the byte source does once its data is exhausted: a clean
`io.EOF`, or an underlying read failure (any non-EOF error). -/
inductive Term where
  | eof
  | ioErr
deriving DecidableEq, Repr

/-- Errors of the TLV parse layer.  In the Go source these are parse
errors or runtime panics (index out of range); both are converted by
the `recover` wrapper in `Read` into a recoverable error. -/
inductive PErr where
  | typeMismatch
  | unexpectedEnd
  | badFormat
deriving DecidableEq, Repr

/-- The error surface of the reading layer, mirroring the Go errors:
`io.EOF`, `io.ErrUnexpectedEOF` (from `io.ReadFull` after a partial
read), an underlying I/O failure, `ErrUnrecognizedSequence`,
`ErrSequenceTooLong`, and parse-layer errors. -/
inductive GoErr where
  | eof
  | unexpectedEOF
  | ioError
  | unrecognizedSequence
  | sequenceTooLong
  | parse (e : PErr)
deriving DecidableEq, Repr

/-- The error a read call reports when the source is exhausted. -/
def termErr : Term → GoErr
  | .eof => .eof
  | .ioErr => .ioError

/-- `maxFileSize = 512` (gosml.go). -/
def maxFileSize : Nat := 512

/-- `escSeq = 1B 1B 1B 1B` (gosml.go). -/
def escSeq : List Nat := [0x1b, 0x1b, 0x1b, 0x1b]

/-- The full 8-byte start sequence `1B 1B 1B 1B 01 01 01 01`. -/
def startSeq : List Nat := [0x1b, 0x1b, 0x1b, 0x1b, 0x01, 0x01, 0x01, 0x01]

/-! ## Byte source adapter

`readChunk(r, buf)` in the source is `io.ReadFull` on a `bufio.Reader`.
The underlying reader may deliver data in arbitrary pieces (serial
ports routinely yield one byte per call); `io.ReadFull` loops until the
destination is full.  We model the underlying reader as a list of
pieces (one per `Read` call) and `readChunk n` as the fill-exact loop:
`io.ReadFull` returns `io.EOF` when the source ends having delivered
nothing, `io.ErrUnexpectedEOF` when it ends after a partial fill, and
propagates an underlying I/O failure. -/

/-- The fill-exact loop of `io.ReadFull`: `acc` holds the bytes read so
far, `n` the bytes still needed, the list holds the pieces the
underlying reader will yield. -/
def readChunkAux (acc : List Nat) : Nat → List (List Nat) → Term →
    Except GoErr (List Nat × List (List Nat))
  | 0, src, _ => .ok (acc, src)
  | _ + 1, [], t =>
    if acc = [] then .error (termErr t)
    else match t with
      | .eof => .error .unexpectedEOF
      | .ioErr => .error .ioError
  | n + 1, c :: rest, t =>
    if c.length ≤ n + 1 then
      readChunkAux (acc ++ c) (n + 1 - c.length) rest t
    else
      .ok (acc ++ c.take (n + 1), c.drop (n + 1) :: rest)

/-- `readChunk` (gosml.go): fill a destination of size `n` completely
from the underlying source, or fail. -/
def readChunk (n : Nat) (src : List (List Nat)) (t : Term) :
    Except GoErr (List Nat × List (List Nat)) :=
  readChunkAux [] n src t

/-- Reading `n` bytes from an already-buffered (flat) byte stream: the
net effect of `readChunk` on any piecewise delivery of the same bytes.
Used by the frame extractor, whose `bufio.Reader` hides the chunking. -/
def readExact (n : Nat) (data : List Nat) (t : Term) :
    Except GoErr (List Nat × List Nat) :=
  if n ≤ data.length then .ok (data.take n, data.drop n)
  else if data.length = 0 then .error (termErr t)
  else match t with
    | .eof => .error .unexpectedEOF
    | .ioErr => .error .ioError

/-! ## Frame extractor (`readFile`, gosml.go) -/

/-- The start-sequence scanner of `readFile`: reads one byte at a time,
counting progress `len` through `1B 1B 1B 1B 01 01 01 01`; any
mismatching byte resets progress to zero.  Returns the stream remainder
once the full 8-byte start sequence has been consumed. -/
def scanStart : Nat → List Nat → Term → Except GoErr (List Nat)
  | _, [], t => .error (termErr t)
  | len, b :: rest, t =>
    let len' := if (b = 0x1b ∧ len < 4) ∨ (b = 0x01 ∧ 4 ≤ len) then len + 1 else 0
    if len' = 8 then .ok rest else scanStart len' rest t

/-- The body loop of `readFile`: read 4-byte chunks while
`len + 8 < maxFileSize`; on the chunk `1B 1B 1B 1B` read 4 more bytes
and succeed if the first is `0x1A`, otherwise fail with
`ErrUnrecognizedSequence`; if the guard fails first, fail with
`ErrSequenceTooLong`.  `acc` is the captured frame so far (Go's
`buf[:len]`); the counter `k` counts the remaining loop iterations:
Go's `len` equals `504 - 4*k` at each loop entry, so the guard
`len + 8 < 512` is exactly `0 < k`, and the initial `len = 8`
corresponds to `k = 124`.  The second component of the result is the
unread remainder of the stream. -/
def readBody : List Nat → Nat → List Nat → Term →
    Except GoErr (List Nat) × List Nat
  | _, 0, data, _ => (.error .sequenceTooLong, data)
  | acc, k + 1, data, t =>
    match readExact 4 data t with
    | .error e => (.error e, [])
    | .ok (chunk, rest) =>
      if chunk = escSeq then
        match readExact 4 rest t with
        | .error e => (.error e, [])
        | .ok (endc, rest2) =>
          if endc.head? = some 0x1a then (.ok (acc ++ chunk ++ endc), rest2)
          else (.error .unrecognizedSequence, rest2)
      else readBody (acc ++ chunk) k rest t

/-- `readFile` (gosml.go): scan for the start sequence, then capture
the frame body until the end sequence.  Returns the result together
with the unread remainder of the stream. -/
def readFile (data : List Nat) (t : Term) :
    Except GoErr (List Nat) × List Nat :=
  match scanStart 0 data t with
  | .error e => (.error e, [])
  | .ok rest => readBody startSeq 124 rest t

/-! ## OBIS dispatch tree (`obisGroupCallback`, gosml.go)

Go callbacks are side-effecting closures; we identify each registered
callback by a numeric id and let `call` return the list of ids fired,
in firing order.  `childGroups` is a Go map keyed by single bytes; as
it is only ever accessed by single-key lookup and store, an association
list with unique keys models it exactly. -/

/-- A node of the dispatch trie: the callbacks registered at this node
and the child nodes keyed by the next OBIS byte. -/
inductive ObisNode where
  | node (callbacks : List Nat) (childGroups : List (Nat × ObisNode))

/-- `newObisGroupCallback` (gosml.go): fresh node, no callbacks, empty
child map. -/
def newObisGroupCallback : ObisNode := .node [] []

/-- The callbacks stored at a node. -/
def ObisNode.callbacks : ObisNode → List Nat
  | .node cbs _ => cbs

/-- The child map of a node. -/
def ObisNode.childGroups : ObisNode → List (Nat × ObisNode)
  | .node _ ch => ch

/-- Go map lookup `oc.childGroups[b]`. -/
def lookupChild : List (Nat × ObisNode) → Nat → Option ObisNode
  | [], _ => none
  | (k, u) :: t, b => if k = b then some u else lookupChild t b

/-- Go map store `oc.childGroups[b] = v`. -/
def setChild : List (Nat × ObisNode) → Nat → ObisNode → List (Nat × ObisNode)
  | [], b, v => [(b, v)]
  | (k, u) :: t, b, v => if k = b then (k, v) :: t else (k, u) :: setChild t b v

/-- `obisGroupCallback.addCallback` (gosml.go): with an exhausted code,
append the callback at this node; otherwise descend into (or create)
the child for the first code byte. -/
def ObisNode.addCallback : ObisNode → List Nat → Nat → ObisNode
  | .node cbs ch, [], id => .node (cbs ++ [id]) ch
  | .node cbs ch, b :: c, id =>
    let sub := (lookupChild ch b).getD newObisGroupCallback
    .node cbs (setChild ch b (sub.addCallback c id))

/-- `obisGroupCallback.call` (gosml.go): fire the callbacks registered
at this node; if the observed code is exhausted, return; otherwise
descend into the child for the first code byte, if one exists. -/
def ObisNode.call : ObisNode → List Nat → List Nat
  | .node cbs _, [] => cbs
  | .node cbs ch, b :: c =>
    cbs ++ (match lookupChild ch b with
            | some sub => sub.call c
            | none => [])

/-- `WithObisCallback` (gosml.go): creates the top-level trie on first
use, then registers the callback under its code. -/
def WithObisCallback (code : List Nat) (id : Nat) :
    Option ObisNode → Option ObisNode
  | none => some (newObisGroupCallback.addCallback code id)
  | some t => some (t.addCallback code id)

/-- The options processing at the top of `Read` (gosml.go): fold the
`WithObisCallback` registrations, starting from a nil trie. -/
def mkOptions (regs : List (List Nat × Nat)) : Option ObisNode :=
  regs.foldl (fun o r => WithObisCallback r.1 r.2 o) none

/-- The trie built from a registration list onto a given initial node. -/
def buildOn (t : ObisNode) (regs : List (List Nat × Nat)) : ObisNode :=
  regs.foldl (fun u r => u.addCallback r.1 r.2) t

/-- Specification-order dispatch, used to state the dispatch claims:
for each depth `k` from 0 (the root wildcards) to the length of the
observed code, the callbacks whose registered code is exactly the
`k`-byte prefix of the observed code, in registration order. -/
def dispatchSpec (regs : List (List Nat × Nat)) (o : List Nat) : List Nat :=
  (List.range (o.length + 1)).flatMap fun k =>
    (regs.filter fun r => r.1 = o.take k).map (·.2)

/-! ## TLV layer constants

Modelled from the spec: the constants file of the repository is not
under `src/`; values follow spec §4.3/§6 and the SML standard, and are
pinned by the unit tests in `gosml_test.go`. -/

/-- Type-family mask of a TL byte (spec §4.3). -/
def OCTET_TYPE_FIELD : Nat := 0x70

/-- Octet-string type family. -/
def OCTET_TYPE_OCTET_STRING : Nat := 0x00

/-- Boolean type family. -/
def OCTET_TYPE_BOOLEAN : Nat := 0x40

/-- Signed-integer type family. -/
def OCTET_TYPE_INTEGER : Nat := 0x50

/-- Unsigned-integer type family. -/
def OCTET_TYPE_UNSIGNED : Nat := 0x60

/-- List type family. -/
def OCTET_TYPE_LIST : Nat := 0x70

/-- Optional-skipped sentinel `0x01` (spec §4.3). -/
def OCTET_OPTIONAL_SKIPPED : Nat := 0x01

/-- End-of-message sentinel `0x00` (spec §4.4). -/
def OCTET_MESSAGE_END : Nat := 0x00

/-- Maximum data widths, in bytes, for the number parsers. -/
def TYPE_NUMBER_8 : Nat := 1

/-- 16-bit width. -/
def TYPE_NUMBER_16 : Nat := 2

/-- 32-bit width. -/
def TYPE_NUMBER_32 : Nat := 4

/-- 64-bit width. -/
def TYPE_NUMBER_64 : Nat := 8

/-- `GetListResponse` message-type tag (SML `0x701`), the only body
dispatched to callbacks. -/
def MESSAGE_GET_LIST_RESPONSE : Nat := 0x701

/-! ## Data model (msg_getlistresponse.go and spec §3) -/

/-- `Value` (gosml.go): tagged union of the TLV primitive values. -/
structure Value where
  Typ : Nat := 0
  DataBytes : List Nat := []
  DataBoolean : Bool := false
  DataInt : Int := 0
deriving DecidableEq, Repr

/-- `ListEntry` (msg_getlistresponse.go): one measurement. -/
structure ListEntry where
  ObjName : List Nat := []
  status : Int := 0
  valTime : Nat := 0
  Unit : Nat := 0
  scaler : Int := 0
  Value : Value := {}
  ValueSignature : List Nat := []
deriving DecidableEq, Repr

/-- `GetListResponse` (msg_getlistresponse.go). -/
structure GetListResponse where
  ClientID : List Nat := []
  ServerID : List Nat := []
  ListName : List Nat := []
  ActSensorTime : Nat := 0
  ValList : List ListEntry := []
  ListSignature : List Nat := []
  ActGatewayTime : Nat := 0
deriving DecidableEq, Repr

/-- The payload of a message body: structured for `GetListResponse`,
opaque for every other recognised tag (spec §4.4). -/
inductive BodyData where
  | glr (g : GetListResponse)
  | other
deriving DecidableEq, Repr

/-- The body of an SML message: a u32 tag and the tag-dependent data. -/
structure MessageBody where
  Tag : Nat
  Data : BodyData
deriving DecidableEq, Repr

/-- `Message`: the outer SML envelope (spec §3/§4.4).
Modelled from the spec: the message-decoder file is not under `src/`. -/
structure Message where
  TransactionId : List Nat
  GroupNo : Nat
  AbortOnError : Nat
  MessageBody : MessageBody
  Crc : Nat
deriving DecidableEq, Repr

/-- `ListEntry.ObjectName` (msg_getlistresponse.go): renders
`ObjName[0]-[1]:[2].[3].[4]*[5]`.  The Go code indexes the first six
bytes unconditionally and panics with an index-out-of-range fault when
`ObjName` is shorter; the panic is modelled as `none`. -/
def ListEntry.ObjectName (le : ListEntry) : Option String :=
  match le.ObjName with
  | a :: b :: c :: d :: e :: f :: _ =>
    some (toString a ++ "-" ++ toString b ++ ":" ++ toString c ++ "." ++
          toString d ++ "." ++ toString e ++ "*" ++ toString f)
  | _ => none

/-! ## TLV buffer primitives

Modelled from the spec: the TLV buffer file is not under `src/`.  The
cursor-over-slice buffer is embedded as the unread suffix of the byte
slice; every parser returns its result together with the remaining
suffix.  Semantics follow spec §4.3 and the unit tests in
`gosml_test.go`.  Bounds faults (Go panics) are parse errors here. -/

/-- `OptionalIsSkipped`: peek for the `0x01` sentinel; consume it and
report `true`, or leave the buffer unmoved and report `false`. -/
def OptionalIsSkipped : List Nat → Bool × List Nat
  | [] => (false, [])
  | b :: rest =>
    if b = OCTET_OPTIONAL_SKIPPED then (true, rest) else (false, b :: rest)

/-- `GetNextType`: peek the type family of the next TL byte. -/
def GetNextType : List Nat → Except PErr Nat
  | [] => .error .unexpectedEnd
  | b :: _ => .ok (b &&& OCTET_TYPE_FIELD)

/-- Nibble-concatenation of the TL length field: while the high bit of
the current TL byte is set, the length continues into the next byte;
each TL byte contributes its low nibble.  Returns the accumulated
length, the number of TL bytes consumed, and the remaining suffix. -/
def tlCont (lenAcc cnt : Nat) : List Nat → Except PErr (Nat × Nat × List Nat)
  | [] => .error .unexpectedEnd
  | b :: rest =>
    let l := lenAcc * 16 + (b &&& 0x0f)
    if b &&& 0x80 = 0 then .ok (l, cnt + 1, rest)
    else tlCont l (cnt + 1) rest

/-- Parse a TL prefix: type family (from the first TL byte), length,
number of TL bytes, remaining suffix. -/
def tlParse (data : List Nat) : Except PErr (Nat × Nat × Nat × List Nat) :=
  match data with
  | [] => .error .unexpectedEnd
  | b :: _ => do
    let (l, c, r) ← tlCont 0 0 data
    .ok (b &&& OCTET_TYPE_FIELD, l, c, r)

/-- `ExpectType`: assert the type family of the next TL byte without
advancing the buffer. -/
def ExpectType (ty : Nat) (data : List Nat) : Except PErr (List Nat) :=
  match data with
  | [] => .error .unexpectedEnd
  | b :: rest =>
    if b &&& OCTET_TYPE_FIELD = ty then .ok (b :: rest) else .error .typeMismatch

/-- `Expect`: assert that the next TL matches the given type and length
exactly, consuming it. -/
def Expect (ty len : Nat) (data : List Nat) : Except PErr (List Nat) := do
  let (t, l, _, r) ← tlParse data
  if t = ty ∧ l = len then .ok r else .error .typeMismatch

/-- `GetNextLength`: consume the next TL and return its length field
(for a list TL, the element count). -/
def GetNextLength (data : List Nat) : Except PErr (Nat × List Nat) := do
  let (_, l, _, r) ← tlParse data
  .ok (l, r)

/-- `OctetStringParse`: the `0x01` sentinel yields the absent (nil)
string; otherwise an octet-string TL whose length counts the TL bytes
themselves, followed by the data bytes. -/
def OctetStringParse (data : List Nat) : Except PErr (List Nat × List Nat) :=
  let (skip, d) := OptionalIsSkipped data
  if skip then .ok ([], d)
  else do
    let (t, l, c, r) ← tlParse d
    if t ≠ OCTET_TYPE_OCTET_STRING then .error .typeMismatch
    else if l < c then .error .badFormat
    else
      let n := l - c
      if n ≤ r.length then .ok (r.take n, r.drop n) else .error .unexpectedEnd

/-- Big-endian value of a byte string. -/
def bytesToNat (bs : List Nat) : Nat :=
  bs.foldl (fun a b => a * 256 + b) 0

/-- `NumberParse`: the `0x01` sentinel yields zero with width 0; else a
TL of the expected integer family with 1..`maxBytes` data bytes (a
narrower width than expected is allowed, spec §4.3), read big-endian.
Returns the raw value, the data width, and the remaining suffix. -/
def NumberParse (expectedType maxBytes : Nat) (data : List Nat) :
    Except PErr (Nat × Nat × List Nat) :=
  let (skip, d) := OptionalIsSkipped data
  if skip then .ok (0, 0, d)
  else do
    let (t, l, c, r) ← tlParse d
    if t ≠ expectedType then .error .typeMismatch
    else if l < c then .error .badFormat
    else
      let n := l - c
      if n = 0 ∨ maxBytes < n then .error .badFormat
      else if n ≤ r.length then .ok (bytesToNat (r.take n), n, r.drop n)
      else .error .unexpectedEnd

/-- Two's-complement reading of a `w`-byte big-endian raw value. -/
def signExtend (w raw : Nat) : Int :=
  if raw < 2 ^ (8 * w - 1) then (raw : Int) else (raw : Int) - 2 ^ (8 * w)

/-- `U8Parse`. -/
def U8Parse (data : List Nat) : Except PErr (Nat × List Nat) := do
  let (v, _, r) ← NumberParse OCTET_TYPE_UNSIGNED TYPE_NUMBER_8 data
  .ok (v, r)

/-- `U16Parse`. -/
def U16Parse (data : List Nat) : Except PErr (Nat × List Nat) := do
  let (v, _, r) ← NumberParse OCTET_TYPE_UNSIGNED TYPE_NUMBER_16 data
  .ok (v, r)

/-- `U32Parse`. -/
def U32Parse (data : List Nat) : Except PErr (Nat × List Nat) := do
  let (v, _, r) ← NumberParse OCTET_TYPE_UNSIGNED TYPE_NUMBER_32 data
  .ok (v, r)

/-- `I8Parse`: signed, sign-extended from the actual width. -/
def I8Parse (data : List Nat) : Except PErr (Int × List Nat) := do
  let (v, w, r) ← NumberParse OCTET_TYPE_INTEGER TYPE_NUMBER_8 data
  .ok (signExtend w v, r)

/-- `I64Parse`: signed, sign-extended from the actual width. -/
def I64Parse (data : List Nat) : Except PErr (Int × List Nat) := do
  let (v, w, r) ← NumberParse OCTET_TYPE_INTEGER TYPE_NUMBER_64 data
  .ok (signExtend w v, r)

/-- `BooleanParse`: boolean TL, one data byte, nonzero is `true`; the
`0x01` sentinel yields `false`. -/
def BooleanParse (data : List Nat) : Except PErr (Bool × List Nat) := do
  let (v, _, r) ← NumberParse OCTET_TYPE_BOOLEAN TYPE_NUMBER_8 data
  .ok (v ≠ 0, r)

/-- `StatusParse`: optional unsigned status word (spec §3). -/
def StatusParse (data : List Nat) : Except PErr (Int × List Nat) := do
  let (v, _, r) ← NumberParse OCTET_TYPE_UNSIGNED TYPE_NUMBER_64 data
  .ok ((v : Int), r)

/-- `TimeParse`: absent time is zero; present time is an SML choice (a
list of 2: a u8 choice tag and the u32 seconds value), spec §3. -/
def TimeParse (data : List Nat) : Except PErr (Nat × List Nat) :=
  let (skip, d) := OptionalIsSkipped data
  if skip then .ok (0, d)
  else do
    let r ← Expect OCTET_TYPE_LIST 2 d
    let (_, r) ← U8Parse r
    let (v, r) ← U32Parse r
    .ok (v, r)

/-- `ValueParse`: dispatch on the peeked type family; the value keeps
the type family (and, for numbers, the data width) in `Typ`. -/
def ValueParse (data : List Nat) : Except PErr (Value × List Nat) :=
  let (skip, d) := OptionalIsSkipped data
  if skip then .ok ({}, d)
  else do
    let ty ← GetNextType d
    if ty = OCTET_TYPE_OCTET_STRING then do
      let (bs, r) ← OctetStringParse d
      .ok ({ Typ := OCTET_TYPE_OCTET_STRING, DataBytes := bs }, r)
    else if ty = OCTET_TYPE_BOOLEAN then do
      let (b, r) ← BooleanParse d
      .ok ({ Typ := OCTET_TYPE_BOOLEAN, DataBoolean := b }, r)
    else if ty = OCTET_TYPE_INTEGER then do
      let (v, w, r) ← NumberParse OCTET_TYPE_INTEGER TYPE_NUMBER_64 d
      .ok ({ Typ := OCTET_TYPE_INTEGER ||| w, DataInt := signExtend w v }, r)
    else if ty = OCTET_TYPE_UNSIGNED then do
      let (v, w, r) ← NumberParse OCTET_TYPE_UNSIGNED TYPE_NUMBER_64 d
      .ok ({ Typ := OCTET_TYPE_UNSIGNED ||| w, DataInt := (v : Int) }, r)
    else .error .typeMismatch

/-! ## Message decoder (msg_getlistresponse.go, and spec §4.4 for the
envelope, whose source file is not under `src/`) -/

/-- `ListEntryParse` (msg_getlistresponse.go): a list of 7. -/
def ListEntryParse (data : List Nat) : Except PErr (ListEntry × List Nat) := do
  let r ← Expect OCTET_TYPE_LIST 7 data
  let (objName, r) ← OctetStringParse r
  let (status, r) ← StatusParse r
  let (valTime, r) ← TimeParse r
  let (u, r) ← U8Parse r
  let (scaler, r) ← I8Parse r
  let (value, r) ← ValueParse r
  let (valueSignature, r) ← OctetStringParse r
  .ok ({ ObjName := objName, status := status, valTime := valTime, Unit := u,
         scaler := scaler, Value := value, ValueSignature := valueSignature }, r)

/-- The element loop of `ListParse`. -/
def ListParseLoop : Nat → List Nat → Except PErr (List ListEntry × List Nat)
  | 0, r => .ok ([], r)
  | n + 1, r => do
    let (e, r) ← ListEntryParse r
    let (es, r) ← ListParseLoop n r
    .ok (e :: es, r)

/-- `ListParse` (msg_getlistresponse.go): an optional list of entries. -/
def ListParse (data : List Nat) : Except PErr (List ListEntry × List Nat) :=
  let (skip, d) := OptionalIsSkipped data
  if skip then .ok ([], d)
  else do
    let d ← ExpectType OCTET_TYPE_LIST d
    let (elems, r) ← GetNextLength d
    ListParseLoop elems r

/-- `GetListResponseParse` (msg_getlistresponse.go): a list of 7. -/
def GetListResponseParse (data : List Nat) :
    Except PErr (GetListResponse × List Nat) := do
  let r ← Expect OCTET_TYPE_LIST 7 data
  let (clientId, r) ← OctetStringParse r
  let (serverId, r) ← OctetStringParse r
  let (listName, r) ← OctetStringParse r
  let (actSensorTime, r) ← TimeParse r
  let (valList, r) ← ListParse r
  let (listSignature, r) ← OctetStringParse r
  let (actGatewayTime, r) ← TimeParse r
  .ok ({ ClientID := clientId, ServerID := serverId, ListName := listName,
         ActSensorTime := actSensorTime, ValList := valList,
         ListSignature := listSignature, ActGatewayTime := actGatewayTime }, r)

mutual
/-- Skip one TLV element (spec §4.4: bodies other than
`GetListResponse` are parsed just enough to advance the cursor).  The
fuel argument bounds the nesting depth of lists; the callers pass the
buffer length, which a well-formed nesting can never exceed, so the
fuel fallback (a parse error) is unreachable on inputs the Go code
parses. -/
def skipElem : Nat → List Nat → Except PErr (List Nat)
  | 0, _ => .error .unexpectedEnd
  | fuel + 1, data => do
    let (t, l, c, r) ← tlParse data
    if t = OCTET_TYPE_LIST then skipList fuel l r
    else if l < c then .error .badFormat
    else if l - c ≤ r.length then .ok (r.drop (l - c))
    else .error .unexpectedEnd
  termination_by fuel _ => (fuel, 0)

/-- Skip `n` TLV elements. -/
def skipList : Nat → Nat → List Nat → Except PErr (List Nat)
  | _, 0, data => .ok data
  | fuel, n + 1, data => do
    let r ← skipElem fuel data
    skipList fuel n r
  termination_by fuel n _ => (fuel, n + 1)
end

/-- Parse the tag-dependent message body (spec §4.4): structured for
`GetListResponse`, skipped (opaque) for every other tag. -/
def BodyParse (tag : Nat) (data : List Nat) :
    Except PErr (BodyData × List Nat) :=
  if tag = MESSAGE_GET_LIST_RESPONSE then do
    let (g, r) ← GetListResponseParse data
    .ok (.glr g, r)
  else do
    let r ← skipElem data.length data
    .ok (.other, r)

/-- `MessageParse`.  Modelled from the spec (§4.4): the envelope is a
list of 6 — transaction id, group number, abort-on-error, body (itself
a list of 2: a u32 tag and the tag-dependent data), crc16, and the
`0x00` end-of-message byte. -/
def MessageParse (data : List Nat) : Except PErr (Message × List Nat) := do
  let r ← Expect OCTET_TYPE_LIST 6 data
  let (transactionId, r) ← OctetStringParse r
  let (groupNo, r) ← U8Parse r
  let (abortOnError, r) ← U8Parse r
  let r ← Expect OCTET_TYPE_LIST 2 r
  let (tag, r) ← U32Parse r
  let (bodyData, r) ← BodyParse tag r
  let (crc, r) ← U16Parse r
  match r with
  | b :: r2 =>
    if b = OCTET_MESSAGE_END then
      .ok ({ TransactionId := transactionId, GroupNo := groupNo,
             AbortOnError := abortOnError,
             MessageBody := { Tag := tag, Data := bodyData }, Crc := crc }, r2)
    else .error .badFormat
  | [] => .error .unexpectedEnd

/-- The message loop of `parseFile` (gosml.go): skip `0x00` padding
bytes, parse messages until the buffer is exhausted, and on a parse
error return the messages parsed so far together with the error.  The
fuel starts at the buffer length; every iteration consumes at least one
byte, so the fuel fallback (an error) is unreachable from `parseFile`. -/
def parseFileLoop : Nat → List Nat → List Message × Option PErr
  | _, [] => ([], none)
  | 0, _ :: _ => ([], some .unexpectedEnd)
  | fuel + 1, b :: rest =>
    if b = OCTET_MESSAGE_END then parseFileLoop fuel rest
    else
      match MessageParse (b :: rest) with
      | .error e => ([], some e)
      | .ok (m, r) =>
        let (ms, e) := parseFileLoop fuel r
        (m :: ms, e)

/-- `parseFile` (gosml.go): parse the SML file payload into messages. -/
def parseFile (fileBytes : List Nat) : List Message × Option PErr :=
  parseFileLoop fileBytes.length fileBytes

/-! ## Driver loop (`Read`, gosml.go) -/

/-- The payload slice `fileBytes[8 : len(fileBytes)-8]` taken by `Read`
before parsing: the frame without the start and end sequences. -/
def stripFrame (file : List Nat) : List Nat :=
  (file.drop 8).take (file.length - 16)

/-- The dispatch phase of one `Read` iteration (gosml.go 210-222): for
every message whose body tag is `MESSAGE_GET_LIST_RESPONSE` and whose
body data is a `GetListResponse`, dispatch every list entry with a
non-empty `ObjName` through the trie.  Returns the fired callback ids
paired with the entry each one received, in firing order. -/
def dispatchEntries (oc : ObisNode) (msgs : List Message) :
    List (Nat × ListEntry) :=
  msgs.flatMap fun m =>
    if m.MessageBody.Tag = MESSAGE_GET_LIST_RESPONSE then
      match m.MessageBody.Data with
      | .glr list =>
        list.ValList.flatMap fun e =>
          if e.ObjName ≠ [] then (oc.call e.ObjName).map (fun i => (i, e))
          else []
      | .other => []
    else []

/-- The outcome of one iteration of the `Read` loop. -/
inductive StepRes where
  | finish (err : Option GoErr)
  | skip (rest : List Nat)
  | deliver (fired : List (Nat × ListEntry)) (rest : List Nat)

/-- One iteration of the loop of `Read` (gosml.go): extract a frame;
`io.EOF` ends the loop with a nil error; `ErrSequenceTooLong` and
`ErrUnrecognizedSequence` are skipped (`continue`); any other
extraction error is returned; an extracted frame is parsed with the
fault-isolating wrapper (a parse error or panic skips the frame,
`continue`) and otherwise its entries are dispatched through the trie
(when one was configured). -/
def ReadStep (oc : Option ObisNode) (data : List Nat) (t : Term) : StepRes :=
  match readFile data t with
  | (.error e, rest) =>
    if e = .eof then .finish none
    else if e = .sequenceTooLong ∨ e = .unrecognizedSequence then .skip rest
    else .finish (some e)
  | (.ok file, rest) =>
    match parseFile (stripFrame file) with
    | (_, some _) => .skip rest
    | (msgs, none) =>
      .deliver (match oc with
                | some trie => dispatchEntries trie msgs
                | none => []) rest

/-- The loop of `Read` (gosml.go), iterating `ReadStep`.  Returns the
fired callbacks in order and the returned error.  The fuel starts
above the source length; every continuing iteration consumes at least
one source byte, so the fuel fallback is unreachable from `Read`. -/
def ReadLoop (oc : Option ObisNode) : Nat → List Nat → Term →
    List (Nat × ListEntry) × Option GoErr
  | 0, _, _ => ([], some .ioError)
  | fuel + 1, data, t =>
    match ReadStep oc data t with
    | .finish err => ([], err)
    | .skip rest => ReadLoop oc fuel rest t
    | .deliver fired rest =>
      let pr := ReadLoop oc fuel rest t
      (fired ++ pr.1, pr.2)

/-- `Read` (gosml.go): build the callback trie from the options, then
drain the source.  The result is the list of fired callbacks (callback
id paired with the `ListEntry` it received, in firing order) and the
error returned to the caller (`none` is Go's nil). -/
def Read (data : List Nat) (t : Term) (regs : List (List Nat × Nat)) :
    List (Nat × ListEntry) × Option GoErr :=
  ReadLoop (mkOptions regs) (data.length + 1) data t

/-! ## Helper lemmas: byte source and frame extractor -/

theorem readExact_ok_of_le {n : Nat} {data : List Nat} {t : Term}
    (h : n ≤ data.length) :
    readExact n data t = .ok (data.take n, data.drop n) := by
  simp [readExact, h]

theorem readExact_ok_inv {n : Nat} {data bs rest : List Nat} {t : Term}
    (h : readExact n data t = .ok (bs, rest)) :
    n ≤ data.length ∧ bs = data.take n ∧ rest = data.drop n := by
  unfold readExact at h
  split at h
  · cases h
    exact ⟨by assumption, rfl, rfl⟩
  · split at h
    · cases h
    · cases t <;> simp at h

theorem readExact_error_inv {n : Nat} {data : List Nat} {t : Term} {e : GoErr}
    (h : readExact n data t = .error e) :
    e = termErr t ∨ e = .unexpectedEOF := by
  unfold readExact at h
  split at h
  · cases h
  · split at h
    · cases h
      exact .inl rfl
    · cases t <;> simp_all [termErr]

theorem scanStart_ok_length {n : Nat} {data r : List Nat} {t : Term}
    (h : scanStart n data t = .ok r) : r.length < data.length := by
  induction data generalizing n with
  | nil => simp [scanStart] at h
  | cons b rest ih =>
    simp only [scanStart] at h
    split at h <;> split at h <;>
      first
        | (cases h; simp)
        | exact Nat.lt_trans (ih h) (by simp)

theorem scanStart_error_inv {n : Nat} {data : List Nat} {t : Term} {e : GoErr}
    (h : scanStart n data t = .error e) : e = termErr t := by
  induction data generalizing n with
  | nil =>
    simp only [scanStart, Except.error.injEq] at h
    exact h.symm
  | cons b rest ih =>
    simp only [scanStart] at h
    split at h <;> split at h <;> first | cases h | exact ih h

theorem readBody_rest_length (acc : List Nat) (k : Nat) (data : List Nat)
    (t : Term) : (readBody acc k data t).2.length ≤ data.length := by
  induction k generalizing acc data with
  | zero => simp [readBody]
  | succ k ih =>
    rw [readBody]
    cases hre : readExact 4 data t with
    | error e => simp
    | ok pr =>
      obtain ⟨chunk, rest⟩ := pr
      obtain ⟨-, -, hrest⟩ := readExact_ok_inv hre
      have hrl : rest.length ≤ data.length := by subst hrest; simp
      dsimp only
      by_cases hesc : chunk = escSeq
      · rw [if_pos hesc]
        cases hre2 : readExact 4 rest t with
        | error e => simp
        | ok pr2 =>
          obtain ⟨endc, rest2⟩ := pr2
          obtain ⟨-, -, hrest2⟩ := readExact_ok_inv hre2
          have hr2 : rest2.length ≤ rest.length := by subst hrest2; simp
          dsimp only
          by_cases hend : endc.head? = some 0x1a
          · rw [if_pos hend]
            exact le_trans hr2 hrl
          · rw [if_neg hend]
            exact le_trans hr2 hrl
      · rw [if_neg hesc]
        exact le_trans (ih _ _) hrl

theorem readBody_error_inv {acc : List Nat} {k : Nat} {data rest : List Nat}
    {t : Term} {e : GoErr}
    (h : readBody acc k data t = (.error e, rest)) :
    e = .sequenceTooLong ∨ e = .unrecognizedSequence ∨ e = .unexpectedEOF ∨
      e = termErr t := by
  induction k generalizing acc data with
  | zero =>
    rw [readBody] at h
    cases h
    exact .inl rfl
  | succ k ih =>
    rw [readBody] at h
    cases hre : readExact 4 data t with
    | error e' =>
      rw [hre] at h
      dsimp only at h
      cases h
      rcases readExact_error_inv hre with h' | h'
      · exact .inr (.inr (.inr h'))
      · exact .inr (.inr (.inl h'))
    | ok pr =>
      obtain ⟨chunk, rest1⟩ := pr
      rw [hre] at h
      dsimp only at h
      by_cases hesc : chunk = escSeq
      · rw [if_pos hesc] at h
        cases hre2 : readExact 4 rest1 t with
        | error e' =>
          rw [hre2] at h
          dsimp only at h
          cases h
          rcases readExact_error_inv hre2 with h' | h'
          · exact .inr (.inr (.inr h'))
          · exact .inr (.inr (.inl h'))
        | ok pr2 =>
          obtain ⟨endc, rest2⟩ := pr2
          rw [hre2] at h
          dsimp only at h
          split at h
          · cases h
          · cases h
            exact .inr (.inl rfl)
      · rw [if_neg hesc] at h
        exact ih h

theorem readFile_error_inv {data rest : List Nat} {t : Term} {e : GoErr}
    (h : readFile data t = (.error e, rest)) :
    e = .sequenceTooLong ∨ e = .unrecognizedSequence ∨ e = .unexpectedEOF ∨
      e = termErr t := by
  unfold readFile at h
  cases hs : scanStart 0 data t with
  | error e' =>
    rw [hs] at h
    dsimp only at h
    cases h
    exact .inr (.inr (.inr (scanStart_error_inv hs)))
  | ok r1 =>
    rw [hs] at h
    dsimp only at h
    exact readBody_error_inv h

theorem readFile_rest_length {data rest : List Nat} {t : Term}
    {res : Except GoErr (List Nat)}
    (h : readFile data t = (res, rest))
    (hres : res ≠ .error (termErr t) ∧ res ≠ .error .unexpectedEOF) :
    rest.length < data.length := by
  unfold readFile at h
  cases hs : scanStart 0 data t with
  | error e' =>
    rw [hs] at h
    dsimp only at h
    cases h
    have := scanStart_error_inv hs
    subst this
    exact absurd rfl hres.1
  | ok r1 =>
    rw [hs] at h
    dsimp only at h
    have h1 : r1.length < data.length := scanStart_ok_length hs
    have h2 : (readBody startSeq 124 r1 t).2.length ≤ r1.length :=
      readBody_rest_length _ _ _ _
    rw [h] at h2
    dsimp only at h2
    omega

/-- Extracting a well-formed frame: once the start sequence is locked,
a body made of 4-byte chunks none of which is the escape sequence,
followed by the end sequence `1B 1B 1B 1B 1A p c1 c2`, is captured in
full, provided the body fits under the loop bound. -/
theorem readBody_frame {chunks : List (List Nat)}
    (hc : ∀ c ∈ chunks, c.length = 4 ∧ c ≠ escSeq) :
    ∀ {k : Nat}, chunks.length < k → ∀ (acc : List Nat) (e1 e2 e3 : Nat)
      (rest : List Nat) (t : Term),
    readBody acc k (chunks.flatten ++ escSeq ++ 0x1a :: e1 :: e2 :: e3 :: rest) t
      = (.ok (acc ++ chunks.flatten ++ escSeq ++ [0x1a, e1, e2, e3]), rest) := by
  induction chunks with
  | nil =>
    intro k hk acc e1 e2 e3 rest t
    obtain ⟨k', rfl⟩ : ∃ k', k = k' + 1 := ⟨k - 1, by omega⟩
    rw [readBody]
    simp only [List.flatten_nil, List.nil_append]
    rw [readExact_ok_of_le (by simp [escSeq])]
    rw [List.take_left' (by simp [escSeq] : escSeq.length = 4),
        List.drop_left' (by simp [escSeq] : escSeq.length = 4)]
    dsimp only
    rw [if_pos rfl]
    rw [readExact_ok_of_le (by simp)]
    simp

  | cons c cs ih =>
    intro k hk acc e1 e2 e3 rest t
    obtain ⟨k', rfl⟩ : ∃ k', k = k' + 1 := ⟨k - 1, by omega⟩
    obtain ⟨hlen, hne⟩ := hc c (by simp)
    rw [readBody]
    have harr : (c :: cs).flatten ++ escSeq ++ 0x1a :: e1 :: e2 :: e3 :: rest
        = c ++ (cs.flatten ++ escSeq ++ 0x1a :: e1 :: e2 :: e3 :: rest) := by
      simp
    rw [harr]
    rw [readExact_ok_of_le (by simp; omega)]
    rw [List.take_left' hlen, List.drop_left' hlen]
    dsimp only
    rw [if_neg hne]
    rw [ih (fun d hd => hc d (by simp [hd])) (by simp at hk ⊢; omega) (acc ++ c)
        e1 e2 e3 rest t]
    simp

/-- The scanner locks onto a stream that begins with the full start
sequence and consumes exactly those 8 bytes. -/
theorem scanStart_startSeq (X : List Nat) (t : Term) :
    scanStart 0 (startSeq ++ X) t = .ok X := by
  simp [scanStart, startSeq]

/-- `readFile` on a stream that begins with a well-formed frame
extracts exactly that frame and leaves the remainder unread. -/
theorem readFile_frame {chunks : List (List Nat)}
    (hc : ∀ c ∈ chunks, c.length = 4 ∧ c ≠ escSeq)
    (hk : chunks.length ≤ 123) (e1 e2 e3 : Nat) (rest : List Nat) (t : Term) :
    readFile (startSeq ++ chunks.flatten ++ escSeq ++ 0x1a :: e1 :: e2 :: e3 :: rest) t
      = (.ok (startSeq ++ chunks.flatten ++ escSeq ++ [0x1a, e1, e2, e3]), rest) := by
  unfold readFile
  have hscan : scanStart 0
      (startSeq ++ chunks.flatten ++ escSeq ++ 0x1a :: e1 :: e2 :: e3 :: rest) t
      = .ok (chunks.flatten ++ escSeq ++ 0x1a :: e1 :: e2 :: e3 :: rest) := by
    rw [List.append_assoc startSeq, List.append_assoc startSeq,
      scanStart_startSeq]
  rw [hscan]
  dsimp only
  have := readBody_frame hc (k := 124) (by omega) startSeq e1 e2 e3 rest t
  rw [List.append_assoc startSeq, List.append_assoc startSeq] at *
  rw [this]

/-- Once 124 non-escape chunks have been consumed the loop bound is
exhausted and `readBody` fails with `ErrSequenceTooLong`. -/
theorem readBody_tooLong {chunks : List (List Nat)}
    (hc : ∀ c ∈ chunks, c.length = 4 ∧ c ≠ escSeq) :
    ∀ {k : Nat}, k ≤ chunks.length → ∀ (acc : List Nat) (extra : List Nat)
      (t : Term),
    (readBody acc k (chunks.flatten ++ extra) t).1 = .error .sequenceTooLong := by
  induction chunks with
  | nil =>
    intro k hk acc extra t
    have hz : k = 0 := by simpa using hk
    subst hz
    rw [readBody]
  | cons c cs ih =>
    intro k hk acc extra t
    match k with
    | 0 => rw [readBody]
    | k' + 1 =>
      obtain ⟨hlen, hne⟩ := hc c (by simp)
      rw [readBody]
      have harr : (c :: cs).flatten ++ extra = c ++ (cs.flatten ++ extra) := by
        simp
      rw [harr]
      rw [readExact_ok_of_le (by simp; omega)]
      rw [List.take_left' hlen, List.drop_left' hlen]
      dsimp only
      rw [if_neg hne]
      exact ih (fun d hd => hc d (by simp [hd])) (by simp at hk ⊢; omega) _ _ _

/-! ## Helper lemmas: driver loop -/

theorem ReadStep_skip_length {oc : Option ObisNode} {data rest : List Nat}
    {t : Term} (h : ReadStep oc data t = .skip rest) :
    rest.length < data.length := by
  unfold ReadStep at h
  cases hrf : readFile data t with
  | mk res rest' =>
  rw [hrf] at h
  cases res with
  | error e =>
    dsimp only at h
    by_cases he : e = .eof
    · rw [if_pos he] at h
      cases h
    · rw [if_neg he] at h
      by_cases hcont : e = .sequenceTooLong ∨ e = .unrecognizedSequence
      · rw [if_pos hcont] at h
        cases h
        apply readFile_rest_length hrf
        rcases hcont with rfl | rfl <;> cases t <;> simp [termErr]
      · rw [if_neg hcont] at h
        cases h
  | ok file =>
    dsimp only at h
    cases hpf : parseFile (stripFrame file) with
    | mk msgs perr =>
    rw [hpf] at h
    cases perr with
    | some p =>
      cases h
      exact readFile_rest_length hrf (by simp)
    | none => cases h

theorem ReadStep_deliver_length {oc : Option ObisNode}
    {data rest : List Nat} {t : Term} {fired : List (Nat × ListEntry)}
    (h : ReadStep oc data t = .deliver fired rest) :
    rest.length < data.length := by
  unfold ReadStep at h
  cases hrf : readFile data t with
  | mk res rest' =>
  rw [hrf] at h
  cases res with
  | error e =>
    dsimp only at h
    by_cases he : e = .eof
    · rw [if_pos he] at h
      cases h
    · rw [if_neg he] at h
      by_cases hcont : e = .sequenceTooLong ∨ e = .unrecognizedSequence
      · rw [if_pos hcont] at h
        cases h
      · rw [if_neg hcont] at h
        cases h
  | ok file =>
    dsimp only at h
    cases hpf : parseFile (stripFrame file) with
    | mk msgs perr =>
    rw [hpf] at h
    cases perr with
    | some p => cases h
    | none =>
      cases h
      exact readFile_rest_length hrf (by simp)

theorem ReadStep_finish_inv {oc : Option ObisNode} {data : List Nat}
    {t : Term} {e : GoErr} (h : ReadStep oc data t = .finish (some e)) :
    (e ≠ .unrecognizedSequence ∧ e ≠ .sequenceTooLong ∧
      ∀ p, e ≠ .parse p) ∧ (t = .eof → e = .unexpectedEOF) := by
  unfold ReadStep at h
  cases hrf : readFile data t with
  | mk res rest' =>
  rw [hrf] at h
  cases res with
  | error e' =>
    dsimp only at h
    by_cases he : e' = .eof
    · rw [if_pos he] at h
      cases h
    · rw [if_neg he] at h
      by_cases hcont : e' = .sequenceTooLong ∨ e' = .unrecognizedSequence
      · rw [if_pos hcont] at h
        cases h
      · rw [if_neg hcont] at h
        cases h
        push_neg at hcont
        rcases readFile_error_inv hrf with h' | h' | h' | h'
        · exact absurd h' hcont.1
        · exact absurd h' hcont.2
        · subst h'
          exact ⟨⟨by simp, by simp, by simp⟩, fun _ => rfl⟩
        · subst h'
          cases t with
          | eof => exact absurd rfl he
          | ioErr =>
            exact ⟨⟨by simp [termErr], by simp [termErr],
              by simp [termErr]⟩, by simp⟩
  | ok file =>
    dsimp only at h
    cases hpf : parseFile (stripFrame file) with
    | mk msgs perr =>
    rw [hpf] at h
    cases perr with
    | some p => cases h
    | none => cases h

/-- The loop fuel is irrelevant as long as it exceeds the source
length: every continuing iteration consumes at least one source byte. -/
theorem ReadLoop_fuel_congr {oc : Option ObisNode} {f1 f2 : Nat}
    {data : List Nat} {t : Term} (h1 : data.length < f1)
    (h2 : data.length < f2) :
    ReadLoop oc f1 data t = ReadLoop oc f2 data t := by
  induction f1 generalizing f2 data with
  | zero => omega
  | succ f1 ih =>
    obtain ⟨f2', rfl⟩ : ∃ f2', f2 = f2' + 1 := ⟨f2 - 1, by omega⟩
    rw [ReadLoop, ReadLoop]
    cases hs : ReadStep oc data t with
    | finish err => rfl
    | skip rest =>
      have := ReadStep_skip_length hs
      exact ih (by omega) (by omega)
    | deliver fired rest =>
      have := ReadStep_deliver_length hs
      dsimp only
      rw [@ih f2' rest (by omega) (by omega)]

/-- Error surface of the loop: a returned error is never
`ErrUnrecognizedSequence`, `ErrSequenceTooLong` or a parse error, and
under a clean-EOF terminal the only returnable error is
`io.ErrUnexpectedEOF`. -/
theorem ReadLoop_error_inv {oc : Option ObisNode} {fuel : Nat}
    {data : List Nat} {t : Term} {e : GoErr}
    (hf : data.length < fuel)
    (h : (ReadLoop oc fuel data t).2 = some e) :
    (e ≠ .unrecognizedSequence ∧ e ≠ .sequenceTooLong ∧
      ∀ p, e ≠ .parse p) ∧
    (t = .eof → e = .unexpectedEOF) := by
  induction fuel generalizing data with
  | zero => omega
  | succ fuel ih =>
    rw [ReadLoop] at h
    cases hs : ReadStep oc data t with
    | finish err =>
      rw [hs] at h
      dsimp only at h
      subst h
      exact ReadStep_finish_inv hs
    | skip rest =>
      rw [hs] at h
      dsimp only at h
      have := ReadStep_skip_length hs
      exact ih (by omega) h
    | deliver fired rest =>
      rw [hs] at h
      dsimp only at h
      have := ReadStep_deliver_length hs
      exact ih (by omega) h

/-- The payload slice of a well-formed frame is its body. -/
theorem stripFrame_frame (payload tail : List Nat) (h : tail.length = 8) :
    stripFrame (startSeq ++ payload ++ tail) = payload := by
  unfold stripFrame
  have h8 : startSeq.length = 8 := by simp [startSeq]
  rw [List.append_assoc, List.drop_left' h8]
  have hl : (startSeq ++ (payload ++ tail)).length - 16 = payload.length := by
    simp [startSeq, h]
  rw [hl]
  exact List.take_left payload tail

/-- A frame whose payload fails to parse (including by panic)
contributes nothing to `Read`: no callbacks, no error, and processing
continues with the remainder of the stream. -/
theorem Read_frame_parse_error {chunks : List (List Nat)}
    (hc : ∀ c ∈ chunks, c.length = 4 ∧ c ≠ escSeq)
    (hlen : chunks.length ≤ 123)
    {msgs : List Message} {pe : PErr}
    (hpf : parseFile chunks.flatten = (msgs, some pe))
    (e1 e2 e3 : Nat) (rest : List Nat) (t : Term)
    (regs : List (List Nat × Nat)) :
    Read (startSeq ++ chunks.flatten ++ escSeq ++
      0x1a :: e1 :: e2 :: e3 :: rest) t regs = Read rest t regs := by
  unfold Read
  have hstep : ReadStep (mkOptions regs)
      (startSeq ++ chunks.flatten ++ escSeq ++ 0x1a :: e1 :: e2 :: e3 :: rest)
      t = .skip rest := by
    unfold ReadStep
    rw [readFile_frame hc hlen e1 e2 e3 rest t]
    dsimp only
    have hstrip : stripFrame (startSeq ++ chunks.flatten ++ escSeq ++
        [0x1a, e1, e2, e3]) = chunks.flatten := by
      rw [List.append_assoc (startSeq ++ chunks.flatten) escSeq]
      exact stripFrame_frame chunks.flatten (escSeq ++ [0x1a, e1, e2, e3])
        (by simp [escSeq])
    rw [hstrip, hpf]
  rw [ReadLoop, hstep]
  apply ReadLoop_fuel_congr
  · simp
    omega
  · omega

/-! ## Concrete fixtures for witnesses

A minimal well-formed SML frame carrying one `GetListResponse` with a
single list entry (OBIS `1-0:1.8.0*255`, unit 30, value 42), a
malformed payload (the one used by the repository's own tests), and a
payload holding one good message followed by garbage. -/

/-- A well-formed 40-byte frame payload: one `GetListResponse` message
(with skipped optional fields) plus a trailing `0x00` padding byte. -/
def framePayloadGood : List Nat :=
  [0x76,
   0x01,
   0x62, 0x00,
   0x62, 0x00,
   0x72,
     0x63, 0x07, 0x01,
     0x77,
       0x01, 0x01, 0x01, 0x01,
       0x71,
         0x77,
           0x07, 1, 0, 1, 8, 0, 255,
           0x01, 0x01,
           0x62, 0x1e,
           0x52, 0x00,
           0x62, 0x2a,
           0x01,
       0x01, 0x01,
   0x63, 0x00, 0x00,
   0x00,
   0x00]

/-- The well-formed frame around `framePayloadGood`. -/
def frameGood : List Nat :=
  startSeq ++ framePayloadGood ++ (escSeq ++ [0x1a, 0x01, 0x00, 0x00])

/-- The list entry carried by `frameGood`. -/
def entryGood : ListEntry :=
  { ObjName := [1, 0, 1, 8, 0, 255], Unit := 30,
    Value := { Typ := 0x61, DataInt := 42 } }

/-- The message carried by `frameGood`. -/
def msgGood : Message :=
  { TransactionId := [], GroupNo := 0, AbortOnError := 0,
    MessageBody := { Tag := 0x701,
                     Data := .glr { ValList := [entryGood] } },
    Crc := 0 }

/-- The malformed frame payload used by the repository's own tests
(`buildSMLFrame([]byte{0x76, 0xFF, 0xFF, 0xFF})`), split in 4-byte
chunks. -/
def badChunks : List (List Nat) := [[0x76, 0xFF, 0xFF, 0xFF]]

/-- A frame payload holding one good message followed by garbage that
makes the parse of the second message fail, split in 4-byte chunks. -/
def mixedChunks : List (List Nat) :=
  [[0x76, 0x01, 0x62, 0x00],
   [0x62, 0x00, 0x72, 0x63],
   [0x07, 0x01, 0x77, 0x01],
   [0x01, 0x01, 0x01, 0x71],
   [0x77, 0x07, 1, 0],
   [1, 8, 0, 255],
   [0x01, 0x01, 0x62, 0x1e],
   [0x52, 0x00, 0x62, 0x2a],
   [0x01, 0x01, 0x01, 0x63],
   [0x00, 0x00, 0x00, 0x00],
   [0x76, 0xFF, 0xFF, 0xFF]]

/-! ## Claim theorems -/

/-- C1.  `Read` isolates parser faults: a frame whose payload fails to
parse (malformed TLV, bounds fault/panic) is converted into a
recoverable error, fires zero callbacks, propagates no error, and the
loop continues with the rest of the stream — so a malformed frame
concatenated with any following stream delivers exactly the callbacks
of the following stream (in particular, all callbacks of a subsequent
valid frame). -/
theorem Read_isolates_parser_faults {chunks : List (List Nat)}
    (hc : ∀ c ∈ chunks, c.length = 4 ∧ c ≠ escSeq)
    (hlen : chunks.length ≤ 123)
    (hbad : (parseFile chunks.flatten).2.isSome)
    (e1 e2 e3 : Nat) (rest : List Nat) (t : Term)
    (regs : List (List Nat × Nat)) :
    Read (startSeq ++ chunks.flatten ++ escSeq ++
      0x1a :: e1 :: e2 :: e3 :: rest) t regs = Read rest t regs := by
  obtain ⟨pe, hpe⟩ := Option.isSome_iff_exists.mp hbad
  exact Read_frame_parse_error hc hlen (Prod.ext rfl hpe) e1 e2 e3 rest t regs

/-- Witness for C1: the malformed test frame followed by a valid
`GetListResponse` frame still delivers the valid frame's callback. -/
theorem Read_isolates_parser_faults_witness :
    Read (startSeq ++ badChunks.flatten ++ escSeq ++
        0x1a :: 0x01 :: 0x00 :: 0x00 :: frameGood) .eof [([1, 0, 1, 8, 0], 0)]
      = Read frameGood .eof [([1, 0, 1, 8, 0], 0)] ∧
    Read frameGood .eof [([1, 0, 1, 8, 0], 0)] = ([(0, entryGood)], none) :=
  ⟨Read_isolates_parser_faults (by decide) (by decide) (by decide)
      0x01 0x00 0x00 frameGood .eof [([1, 0, 1, 8, 0], 0)],
    by decide⟩

/-- C2 (amended).  `Read` never returns `ErrUnrecognizedSequence`,
`ErrSequenceTooLong`, a parse error or a panic; when the source
terminates in a clean EOF, the only non-nil error it can return is
`io.ErrUnexpectedEOF` (raised by `io.ReadFull` when the data runs out
part-way through a 4-byte chunk); any other non-nil error comes from an
underlying non-EOF read failure. -/
theorem Read_error_surface (data : List Nat) (t : Term)
    (regs : List (List Nat × Nat)) {e : GoErr}
    (h : (Read data t regs).2 = some e) :
    (e ≠ .unrecognizedSequence ∧ e ≠ .sequenceTooLong ∧
      ∀ p, e ≠ .parse p) ∧
    (t = .eof → e = .unexpectedEOF) :=
  ReadLoop_error_inv (by omega) h

/-- Witness for C2: instantiated at a stream that ends one byte into a
frame body. -/
theorem Read_error_surface_witness :
    ((GoErr.unexpectedEOF ≠ GoErr.unrecognizedSequence ∧
      GoErr.unexpectedEOF ≠ GoErr.sequenceTooLong ∧
      ∀ p, GoErr.unexpectedEOF ≠ GoErr.parse p) ∧
     (Term.eof = Term.eof → GoErr.unexpectedEOF = GoErr.unexpectedEOF)) :=
  Read_error_surface (startSeq ++ [0xaa]) .eof [] (by decide)

/-- Counterexample to C2 as stated: a stream that ends in the middle of
a frame body (one byte after the start sequence) makes `Read` return
`io.ErrUnexpectedEOF`, a non-nil error, although the source suffered no
I/O failure — `Read` does not return Ok for every malformed stream. -/
theorem Read_not_ok_mid_chunk :
    Read (startSeq ++ [0xaa]) .eof [] = ([], some .unexpectedEOF) := by
  decide

/-- C3 (amended).  `readFile` returns the full captured range (START,
body, END) for every well-formed file whose body is made of 4-byte
non-escape chunks of total length at most 492 bytes
(`maxFileSize - 20`); and it fails with `ErrSequenceTooLong` exactly
when the captured length reaches `maxFileSize - 8` with no END found,
which already happens for a body of 496 bytes (`maxFileSize - 16`) even
though the total file size is exactly `maxFileSize`. -/
theorem readFile_wellformed_spec :
    (∀ (chunks : List (List Nat)) (e1 e2 e3 : Nat) (rest : List Nat)
       (t : Term),
      (∀ c ∈ chunks, c.length = 4 ∧ c ≠ escSeq) → chunks.length ≤ 123 →
      readFile (startSeq ++ chunks.flatten ++ escSeq ++
          0x1a :: e1 :: e2 :: e3 :: rest) t
        = (.ok (startSeq ++ chunks.flatten ++ escSeq ++ [0x1a, e1, e2, e3]),
           rest)) ∧
    (∀ (chunks : List (List Nat)) (extra : List Nat) (t : Term),
      (∀ c ∈ chunks, c.length = 4 ∧ c ≠ escSeq) → chunks.length = 124 →
      (readFile (startSeq ++ chunks.flatten ++ extra) t).1
        = .error .sequenceTooLong) := by
  constructor
  · intro chunks e1 e2 e3 rest t hc hk
    exact readFile_frame hc hk e1 e2 e3 rest t
  · intro chunks extra t hc hk
    unfold readFile
    rw [List.append_assoc startSeq, scanStart_startSeq]
    dsimp only
    exact readBody_tooLong hc (by omega) startSeq extra t

/-- Witness for C3: a one-chunk body is captured in full, and a body of
124 zero chunks (496 bytes) is rejected as too long. -/
theorem readFile_wellformed_spec_witness :
    readFile (startSeq ++ ([[0x00, 0x00, 0x00, 0x00]] : List (List Nat)).flatten
        ++ escSeq ++ 0x1a :: 0x00 :: 0x00 :: 0x00 :: ([] : List Nat)) .eof
      = (.ok (startSeq ++ ([[0x00, 0x00, 0x00, 0x00]] :
            List (List Nat)).flatten ++ escSeq ++ [0x1a, 0x00, 0x00, 0x00]),
         ([] : List Nat)) ∧
    (readFile (startSeq ++ (List.replicate 124 [0x00, 0x00, 0x00, 0x00] :
        List (List Nat)).flatten ++ ([] : List Nat)) .eof).1
      = .error .sequenceTooLong :=
  ⟨readFile_wellformed_spec.1 [[0x00, 0x00, 0x00, 0x00]] 0x00 0x00 0x00 []
      .eof (by decide) (by decide),
   readFile_wellformed_spec.2 (List.replicate 124 [0x00, 0x00, 0x00, 0x00])
      [] .eof (by decide) (by decide)⟩

set_option maxRecDepth 40000 in
/-- Counterexample to C3 as stated: a well-formed file with a 496-byte
body (the claimed maximum `maxFileSize - 16`, total size exactly
`maxFileSize = 512`) is not captured — `readFile` fails with
`ErrSequenceTooLong` because the loop bound `len + 8 < maxFileSize` is
hit before the END sequence is read. -/
theorem readFile_rejects_496_body :
    (readFile (startSeq ++ List.replicate 496 0x00 ++
        (escSeq ++ [0x1a, 0x00, 0x00, 0x00])) .eof).1
      = .error .sequenceTooLong := by
  decide

/-- C10.  Frame processing is all-or-nothing: when `parseFile` fails on
any message of a frame it returns the partial message list together
with the error, and `Read` discards the partial list entirely —
messages parsed successfully before the failure fire no callbacks, and
the loop continues with the rest of the stream. -/
theorem Read_discards_partial_parse {chunks : List (List Nat)}
    (hc : ∀ c ∈ chunks, c.length = 4 ∧ c ≠ escSeq)
    (hlen : chunks.length ≤ 123)
    {msgs : List Message} {pe : PErr}
    (hpf : parseFile chunks.flatten = (msgs, some pe))
    (e1 e2 e3 : Nat) (rest : List Nat) (t : Term)
    (regs : List (List Nat × Nat)) :
    Read (startSeq ++ chunks.flatten ++ escSeq ++
      0x1a :: e1 :: e2 :: e3 :: rest) t regs = Read rest t regs :=
  Read_frame_parse_error hc hlen hpf e1 e2 e3 rest t regs

/-- Witness for C10: a frame holding one successfully parsed
`GetListResponse` message followed by garbage is discarded whole — the
parsed message's entry fires nothing, and only the following valid
frame's callback fires. -/
theorem Read_discards_partial_parse_witness :
    parseFile mixedChunks.flatten = ([msgGood], some .unexpectedEnd) ∧
    Read (startSeq ++ mixedChunks.flatten ++ escSeq ++
        0x1a :: 0x01 :: 0x00 :: 0x00 :: frameGood) .eof [([1, 0, 1, 8, 0], 0)]
      = Read frameGood .eof [([1, 0, 1, 8, 0], 0)] ∧
    Read frameGood .eof [([1, 0, 1, 8, 0], 0)] = ([(0, entryGood)], none) :=
  ⟨by decide,
   @Read_discards_partial_parse mixedChunks (by decide) (by decide)
      [msgGood] .unexpectedEnd (by decide)
      0x01 0x00 0x00 frameGood .eof [([1, 0, 1, 8, 0], 0)],
   by decide⟩

/-! ## Claim C8: the read-exact contract of `readChunk` -/

theorem readChunkAux_ok_length {acc : List Nat} {n : Nat}
    {chunks : List (List Nat)} {t : Term} {bs : List Nat}
    {rest : List (List Nat)}
    (h : readChunkAux acc n chunks t = .ok (bs, rest)) :
    bs.length = acc.length + n := by
  induction chunks generalizing acc n with
  | nil =>
    match n with
    | 0 =>
      rw [readChunkAux.eq_def] at h
      dsimp only at h
      cases h
      simp
    | n + 1 =>
      rw [readChunkAux.eq_def] at h
      dsimp only at h
      split at h
      · cases h
      · cases t <;> simp at h
  | cons c cs ih =>
    match n with
    | 0 =>
      rw [readChunkAux.eq_def] at h
      dsimp only at h
      cases h
      simp
    | n + 1 =>
      rw [readChunkAux.eq_def] at h
      dsimp only at h
      split at h
      · have hres := ih h
        simp only [List.length_append] at hres ⊢
        omega
      · cases h
        rename_i hcl
        simp only [List.length_append, List.length_take]
        omega

theorem readChunkAux_flatten_take {acc : List Nat} {n : Nat}
    {chunks : List (List Nat)} {t : Term}
    (h : n ≤ chunks.flatten.length) :
    ∃ rest, readChunkAux acc n chunks t
      = .ok (acc ++ chunks.flatten.take n, rest) := by
  induction chunks generalizing acc n with
  | nil =>
    have hz : n = 0 := by simpa using h
    subst hz
    exact ⟨[], by rw [readChunkAux.eq_def]; simp⟩
  | cons c cs ih =>
    match n with
    | 0 => exact ⟨c :: cs, by rw [readChunkAux.eq_def]; simp⟩
    | n + 1 =>
      simp only [List.flatten_cons, List.length_append] at h
      by_cases hcl : c.length ≤ n + 1
      · have hb : n + 1 - c.length ≤ cs.flatten.length := by omega
        obtain ⟨rest, hr⟩ := @ih (acc ++ c) (n + 1 - c.length) hb
        refine ⟨rest, ?_⟩
        rw [readChunkAux.eq_def]
        dsimp only
        rw [if_pos hcl, hr]
        have : List.take (n + 1) (c ++ cs.flatten)
            = c ++ List.take (n + 1 - c.length) cs.flatten := by
          rw [List.take_append_eq_append_take, List.take_of_length_le hcl]
        simp [this]
      · refine ⟨c.drop (n + 1) :: cs, ?_⟩
        rw [readChunkAux.eq_def]
        dsimp only
        rw [if_neg hcl]
        have : List.take (n + 1) (c ++ cs.flatten) = List.take (n + 1) c := by
          rw [List.take_append_eq_append_take]
          have hz : n + 1 - c.length = 0 := by omega
          simp [hz]
        simp [this]

/-- C8.  The read-exact contract: `readChunk` (Go `io.ReadFull`) over
any piecewise delivery of the source either fills the destination
completely — an `ok` result carries exactly `n` bytes, and whenever `n`
bytes are available it returns precisely the next `n` bytes of the
source, regardless of how the underlying reader chunks them (one byte
per call included) — or returns an error. -/
theorem readChunk_spec :
    (∀ (n : Nat) (chunks : List (List Nat)) (t : Term) (bs : List Nat)
       (rest : List (List Nat)),
      readChunk n chunks t = .ok (bs, rest) → bs.length = n) ∧
    (∀ (n : Nat) (chunks : List (List Nat)) (t : Term),
      n ≤ chunks.flatten.length →
      ∃ rest, readChunk n chunks t = .ok (chunks.flatten.take n, rest)) := by
  constructor
  · intro n chunks t bs rest h
    simpa using readChunkAux_ok_length h
  · intro n chunks t h
    simpa [readChunk] using @readChunkAux_flatten_take [] n chunks t h

/-- Witness for C8: a source that delivers `AA BB CC DD` one byte per
read call still fills a 4-byte destination exactly. -/
theorem readChunk_spec_witness :
    (([0xAA, 0xBB, 0xCC, 0xDD] : List Nat).length = 4) ∧
    (∃ rest, readChunk 4 [[0xAA], [0xBB], [0xCC], [0xDD]] .eof
      = .ok (([[0xAA], [0xBB], [0xCC], [0xDD]] :
          List (List Nat)).flatten.take 4, rest)) :=
  ⟨readChunk_spec.1 4 [[0xAA], [0xBB], [0xCC], [0xDD]] .eof
      [0xAA, 0xBB, 0xCC, 0xDD] [] (by decide),
   readChunk_spec.2 4 [[0xAA], [0xBB], [0xCC], [0xDD]] .eof (by decide)⟩

/-! ## Helper lemmas: the OBIS dispatch trie

The characterization theorem: dispatching an observed code through the
trie built from a registration list fires, for each depth `k` from the
root down, the callbacks whose registered code is exactly the `k`-byte
prefix of the observed code, in registration order (`dispatchSpec`). -/

/-- The registrations that live below the child at byte `b`, with the
leading byte stripped. -/
def stripRegs (b : Nat) (regs : List (List Nat × Nat)) :
    List (List Nat × Nat) :=
  regs.filterMap fun r =>
    match r.1 with
    | [] => none
    | b' :: c => if b' = b then some (c, r.2) else none

/-- The child node produced by folding registrations: an existing child
receives the stripped registrations; a missing child is created exactly
when a relevant registration exists. -/
def subBuild (o : Option ObisNode) (regs : List (List Nat × Nat)) :
    Option ObisNode :=
  match o, regs with
  | none, [] => none
  | some u, rs => some (buildOn u rs)
  | none, r :: rs => some (buildOn newObisGroupCallback (r :: rs))

theorem lookupChild_setChild_eq (ch : List (Nat × ObisNode)) (b : Nat)
    (v : ObisNode) : lookupChild (setChild ch b v) b = some v := by
  induction ch with
  | nil => simp [setChild, lookupChild]
  | cons p t ih =>
    obtain ⟨k, u⟩ := p
    by_cases hk : k = b
    · simp [setChild, lookupChild, hk]
    · simp [setChild, lookupChild, hk, ih]

theorem lookupChild_setChild_ne (ch : List (Nat × ObisNode)) {b' b : Nat}
    (v : ObisNode) (hne : b' ≠ b) :
    lookupChild (setChild ch b' v) b = lookupChild ch b := by
  induction ch with
  | nil => simp [setChild, lookupChild, hne]
  | cons p t ih =>
    obtain ⟨k, u⟩ := p
    by_cases hk : k = b'
    · subst hk
      simp [setChild, lookupChild, hne]
    · by_cases hkb : k = b
      · simp [setChild, lookupChild, hk, hkb, Ne.symm hne]
      · simp [setChild, lookupChild, hk, hkb, ih]

theorem addCallback_nil (t : ObisNode) (i : Nat) :
    t.addCallback [] i = .node (t.callbacks ++ [i]) t.childGroups := by
  cases t
  rfl

theorem addCallback_cons (t : ObisNode) (b : Nat) (c : List Nat) (i : Nat) :
    t.addCallback (b :: c) i = .node t.callbacks
      (setChild t.childGroups b
        (((lookupChild t.childGroups b).getD
            newObisGroupCallback).addCallback c i)) := by
  cases t
  rfl

theorem buildOn_callbacks (regs : List (List Nat × Nat)) :
    ∀ t : ObisNode, (buildOn t regs).callbacks
      = t.callbacks ++ (regs.filter fun r => r.1 = []).map (·.2) := by
  induction regs with
  | nil => intro t; simp [buildOn]
  | cons r rs ih =>
    intro t
    obtain ⟨c, i⟩ := r
    rw [buildOn, List.foldl_cons, ← buildOn, ih]
    cases c with
    | nil =>
      rw [addCallback_nil]
      simp [ObisNode.callbacks]
    | cons b c' =>
      rw [addCallback_cons]
      simp [ObisNode.callbacks]

theorem buildOn_child (regs : List (List Nat × Nat)) (b : Nat) :
    ∀ t : ObisNode, lookupChild (buildOn t regs).childGroups b
      = subBuild (lookupChild t.childGroups b) (stripRegs b regs) := by
  induction regs with
  | nil =>
    intro t
    cases hl : lookupChild t.childGroups b <;>
      simp [buildOn, stripRegs, subBuild, hl]
  | cons r rs ih =>
    intro t
    obtain ⟨cbs, ch⟩ := t
    obtain ⟨c, i⟩ := r
    rw [buildOn, List.foldl_cons, ← buildOn, ih]
    cases c with
    | nil =>
      rw [addCallback_nil]
      simp only [ObisNode.childGroups, stripRegs, List.filterMap_cons]
    | cons b' c' =>
      rw [addCallback_cons]
      simp only [ObisNode.callbacks, ObisNode.childGroups]
      by_cases hb : b' = b
      · rw [hb]
        rw [lookupChild_setChild_eq]
        have hstrip : stripRegs b ((b :: c', i) :: rs)
            = (c', i) :: stripRegs b rs := by
          simp [stripRegs, List.filterMap_cons]
        rw [hstrip]
        cases hl : lookupChild ch b <;>
          simp [subBuild, buildOn, List.foldl_cons]
      · rw [lookupChild_setChild_ne _ _ hb]
        have hstrip : stripRegs b ((b' :: c', i) :: rs) = stripRegs b rs := by
          simp [stripRegs, List.filterMap_cons, hb]
        rw [hstrip]

theorem ObisNode.call_nil (t : ObisNode) : t.call [] = t.callbacks := by
  cases t
  rfl

theorem ObisNode.call_cons (t : ObisNode) (b : Nat) (c : List Nat) :
    t.call (b :: c) = t.callbacks ++
      (match lookupChild t.childGroups b with
       | some sub => sub.call c
       | none => []) := by
  cases t
  rfl

theorem filter_stripRegs (b : Nat) (w : List Nat)
    (regs : List (List Nat × Nat)) :
    ((stripRegs b regs).filter fun r => r.1 = w).map (·.2)
      = (regs.filter fun r => r.1 = b :: w).map (·.2) := by
  induction regs with
  | nil => rfl
  | cons r rs ih =>
    obtain ⟨c, i⟩ := r
    cases c with
    | nil => simpa [stripRegs, List.filterMap_cons] using ih
    | cons b' c' =>
      by_cases hb : b' = b
      · subst hb
        by_cases hw : c' = w
        · subst hw
          simpa [stripRegs, List.filterMap_cons, List.filter_cons] using ih
        · have hne : ¬(b' :: c' = b' :: w) := by simp [hw]
          simpa [stripRegs, List.filterMap_cons, List.filter_cons, hw, hne]
            using ih
      · have hne : ¬(b' :: c' = b :: w) := by simp [hb]
        simpa [stripRegs, List.filterMap_cons, List.filter_cons, hb, hne]
          using ih

theorem flatMap_fun_congr {α β : Type} (l : List α) {f g : α → List β}
    (h : ∀ a, f a = g a) : l.flatMap f = l.flatMap g :=
  congrArg _ (funext h)

theorem dispatchSpec_nil (regs : List (List Nat × Nat)) :
    dispatchSpec regs [] = (regs.filter fun r => r.1 = []).map (·.2) := by
  simp [dispatchSpec, List.range_succ]

theorem dispatchSpec_cons (regs : List (List Nat × Nat)) (b : Nat)
    (o : List Nat) :
    dispatchSpec regs (b :: o)
      = (regs.filter fun r => r.1 = []).map (·.2)
        ++ dispatchSpec (stripRegs b regs) o := by
  unfold dispatchSpec
  rw [show (b :: o).length + 1 = (o.length + 1) + 1 from by simp,
    List.range_succ_eq_map]
  rw [List.flatMap_cons, List.flatMap_map]
  refine congrArg₂ (· ++ ·) (by simp) (flatMap_fun_congr _ fun k => ?_)
  rw [List.take_succ_cons]
  exact (filter_stripRegs b (List.take k o) regs).symm

/-- The characterization of trie dispatch: the trie built from a
registration list fires exactly `dispatchSpec` — for each prefix depth
from the root down, the matching registrations in registration order. -/
theorem call_buildOn (o : List Nat) :
    ∀ regs : List (List Nat × Nat),
      (buildOn newObisGroupCallback regs).call o = dispatchSpec regs o := by
  induction o with
  | nil =>
    intro regs
    rw [ObisNode.call_nil, buildOn_callbacks, dispatchSpec_nil]
    simp [newObisGroupCallback, ObisNode.callbacks]
  | cons b o' ih =>
    intro regs
    rw [ObisNode.call_cons, buildOn_callbacks, dispatchSpec_cons, buildOn_child]
    have hroot : newObisGroupCallback.callbacks = [] := rfl
    have hchild : lookupChild newObisGroupCallback.childGroups b = none := rfl
    rw [hroot, hchild]
    simp only [List.nil_append]
    refine congrArg₂ (· ++ ·) rfl ?_
    cases hs : stripRegs b regs with
    | nil => simp [subBuild, dispatchSpec]
    | cons x xs =>
      simp only [subBuild]
      exact ih (x :: xs)

/-- C4.  A callback registered under code `c` fires for an observed
code `o` exactly when `c` is a prefix of `o` (the empty code being a
wildcard); in particular registering `{1,0,1,8,0} ↦ 1` and
`{1,0,2,8,0} ↦ 2` and dispatching `{1,0,2,8,0,255}` fires exactly
callback 2, not callback 1. -/
theorem obis_prefix_dispatch :
    (∀ (regs : List (List Nat × Nat)) (o : List Nat) (i : Nat),
      i ∈ (buildOn newObisGroupCallback regs).call o ↔
        ∃ c, (c, i) ∈ regs ∧ c <+: o) ∧
    (buildOn newObisGroupCallback
        [([1, 0, 1, 8, 0], 1), ([1, 0, 2, 8, 0], 2)]).call
      [1, 0, 2, 8, 0, 255] = [2] := by
  constructor
  · intro regs o i
    rw [call_buildOn]
    unfold dispatchSpec
    simp only [List.mem_flatMap, List.mem_range, List.mem_map,
      List.mem_filter, decide_eq_true_eq]
    constructor
    · rintro ⟨k, hk, r, ⟨hr, htake⟩, hri⟩
      obtain ⟨c, j⟩ := r
      dsimp only at htake hri
      subst htake hri
      exact ⟨List.take k o, hr, List.take_prefix k o⟩
    · rintro ⟨c, hc, hpre⟩
      have hlen := hpre.length_le
      refine ⟨c.length, by omega, (c, i), ⟨hc, ?_⟩, rfl⟩
      exact List.prefix_iff_eq_take.mp hpre
  · decide

/-- C5.  Dispatching with an empty observed OBIS code terminates
cleanly (the model is a total function: no index past the end of the
code), fires exactly the callbacks stored at the root — for a trie
built from registrations, exactly the wildcard (empty-code)
registrations in registration order — and returns. -/
theorem dispatch_empty_code :
    (∀ t : ObisNode, t.call [] = t.callbacks) ∧
    (∀ regs : List (List Nat × Nat),
      (buildOn newObisGroupCallback regs).call []
        = (regs.filter fun r => r.1 = []).map (·.2)) := by
  constructor
  · intro t
    cases t
    rfl
  · intro regs
    rw [ObisNode.call_nil, buildOn_callbacks]
    simp [newObisGroupCallback, ObisNode.callbacks]

/-! ## Claim C7: callback ordering -/

/-- The entries of one message that `Read` dispatches: those of a
`GetListResponse` body with a non-empty `ObjName`, in list order. -/
def entriesOfMessage (m : Message) : List ListEntry :=
  if m.MessageBody.Tag = MESSAGE_GET_LIST_RESPONSE then
    match m.MessageBody.Data with
    | .glr list => list.ValList.filter fun e => e.ObjName ≠ []
    | .other => []
  else []

/-- The frame-level outcome of one loop iteration, keeping the parsed
messages (used to state the ordering claim). -/
inductive EStepRes where
  | halt
  | skipE (rest : List Nat)
  | found (ms : List Message) (rest : List Nat)

/-- The frame-level view of one `Read` iteration: same case analysis as
`ReadStep`, before dispatch. -/
def EntriesStep (data : List Nat) (t : Term) : EStepRes :=
  match readFile data t with
  | (.error e, rest) =>
    if e = .eof then .halt
    else if e = .sequenceTooLong ∨ e = .unrecognizedSequence then .skipE rest
    else .halt
  | (.ok file, rest) =>
    match parseFile (stripFrame file) with
    | (_, some _) => .skipE rest
    | (ms, none) => .found ms rest

/-- The dispatched entries of a stream, in stream order: frames in
stream order, messages in file order, entries in list order. -/
def streamEntriesLoop : Nat → List Nat → Term → List ListEntry
  | 0, _, _ => []
  | fuel + 1, data, t =>
    match EntriesStep data t with
    | .halt => []
    | .skipE rest => streamEntriesLoop fuel rest t
    | .found ms rest =>
      ms.flatMap entriesOfMessage ++ streamEntriesLoop fuel rest t

/-- The dispatched entries of a whole stream. -/
def streamEntries (data : List Nat) (t : Term) : List ListEntry :=
  streamEntriesLoop (data.length + 1) data t

theorem flatMap_filter {α β : Type} (p : α → Bool) (f : α → List β) :
    ∀ l : List α, (l.filter p).flatMap f
      = l.flatMap fun a => if p a then f a else []
  | [] => rfl
  | a :: l => by
    cases hp : p a <;>
      simp [List.filter_cons, hp, flatMap_filter p f l]

theorem dispatchEntries_eq (trie : ObisNode) (msgs : List Message) :
    dispatchEntries trie msgs
      = (msgs.flatMap entriesOfMessage).flatMap
          fun e => (trie.call e.ObjName).map fun i => (i, e) := by
  induction msgs with
  | nil => rfl
  | cons m ms ih =>
    rw [List.flatMap_cons, List.flatMap_append, ← ih]
    unfold dispatchEntries
    rw [List.flatMap_cons]
    refine congrArg₂ (· ++ ·) ?_ rfl
    unfold entriesOfMessage
    by_cases htag : m.MessageBody.Tag = MESSAGE_GET_LIST_RESPONSE
    · rw [if_pos htag, if_pos htag]
      cases hdata : m.MessageBody.Data with
      | glr list =>
        rw [flatMap_filter]
        apply flatMap_fun_congr
        intro e
        by_cases hne : e.ObjName ≠ [] <;> simp [hne]
      | other => rfl
    · rw [if_neg htag, if_neg htag]
      rfl

theorem EntriesStep_cases (trie : ObisNode) (data : List Nat) (t : Term) :
    (∃ err, EntriesStep data t = .halt ∧
      ReadStep (some trie) data t = .finish err) ∨
    (∃ rest, EntriesStep data t = .skipE rest ∧
      ReadStep (some trie) data t = .skip rest) ∨
    (∃ ms rest, EntriesStep data t = .found ms rest ∧
      ReadStep (some trie) data t = .deliver (dispatchEntries trie ms) rest)
    := by
  unfold EntriesStep ReadStep
  cases hrf : readFile data t with
  | mk res rest =>
  cases res with
  | error e =>
    dsimp only
    by_cases he : e = .eof
    · rw [if_pos he, if_pos he]
      exact .inl ⟨none, rfl, rfl⟩
    · rw [if_neg he, if_neg he]
      by_cases hcont : e = .sequenceTooLong ∨ e = .unrecognizedSequence
      · rw [if_pos hcont, if_pos hcont]
        exact .inr (.inl ⟨rest, rfl, rfl⟩)
      · rw [if_neg hcont, if_neg hcont]
        exact .inl ⟨some e, rfl, rfl⟩
  | ok file =>
    dsimp only
    cases hpf : parseFile (stripFrame file) with
    | mk ms perr =>
    cases perr with
    | some p => exact .inr (.inl ⟨rest, rfl, rfl⟩)
    | none => exact .inr (.inr ⟨ms, rest, rfl, rfl⟩)

theorem ReadLoop_trace (trie : ObisNode) :
    ∀ (fuel : Nat) (data : List Nat) (t : Term),
    (ReadLoop (some trie) fuel data t).1
      = (streamEntriesLoop fuel data t).flatMap
          fun e => (trie.call e.ObjName).map fun i => (i, e) := by
  intro fuel
  induction fuel with
  | zero =>
    intro data t
    rfl
  | succ fuel ih =>
    intro data t
    rw [ReadLoop, streamEntriesLoop]
    rcases EntriesStep_cases trie data t with ⟨err, he, hr⟩ | ⟨rest, he, hr⟩
      | ⟨ms, rest, he, hr⟩ <;> rw [he, hr] <;> dsimp only
    · rfl
    · exact ih rest t
    · rw [List.flatMap_append, ih rest t, dispatchEntries_eq]

theorem ReadStep_none_fired {data rest : List Nat} {t : Term}
    {fired : List (Nat × ListEntry)}
    (h : ReadStep none data t = .deliver fired rest) : fired = [] := by
  unfold ReadStep at h
  cases hrf : readFile data t with
  | mk res rest' =>
  rw [hrf] at h
  cases res with
  | error e =>
    dsimp only at h
    by_cases he : e = .eof
    · rw [if_pos he] at h
      cases h
    · rw [if_neg he] at h
      by_cases hc : e = .sequenceTooLong ∨ e = .unrecognizedSequence
      · rw [if_pos hc] at h
        cases h
      · rw [if_neg hc] at h
        cases h
  | ok file =>
    dsimp only at h
    cases hpf : parseFile (stripFrame file) with
    | mk ms perr =>
    rw [hpf] at h
    cases perr with
    | some p => cases h
    | none =>
      cases h
      rfl

theorem ReadLoop_none_trace :
    ∀ (fuel : Nat) (data : List Nat) (t : Term),
      (ReadLoop none fuel data t).1 = [] := by
  intro fuel
  induction fuel with
  | zero =>
    intro data t
    rfl
  | succ fuel ih =>
    intro data t
    rw [ReadLoop]
    cases hs : ReadStep none data t with
    | finish err => rfl
    | skip rest => exact ih rest t
    | deliver fired rest =>
      dsimp only
      rw [ReadStep_none_fired hs, ih rest t]
      rfl

theorem foldl_WithObisCallback_some (rs : List (List Nat × Nat)) :
    ∀ t : ObisNode,
      rs.foldl (fun o r => WithObisCallback r.1 r.2 o) (some t)
        = some (buildOn t rs) := by
  induction rs with
  | nil =>
    intro t
    simp [buildOn]
  | cons r rs ih =>
    intro t
    rw [List.foldl_cons]
    have h2 : buildOn t (r :: rs) = buildOn (t.addCallback r.1 r.2) rs := by
      simp [buildOn]
    rw [h2]
    exact ih (t.addCallback r.1 r.2)

theorem mkOptions_cons (r : List Nat × Nat) (rs : List (List Nat × Nat)) :
    mkOptions (r :: rs)
      = some (buildOn newObisGroupCallback (r :: rs)) := by
  unfold mkOptions
  rw [List.foldl_cons]
  have h2 : buildOn newObisGroupCallback (r :: rs)
      = buildOn (newObisGroupCallback.addCallback r.1 r.2) rs := by
    simp [buildOn]
  rw [h2]
  exact foldl_WithObisCallback_some rs _

/-- C7.  During one `Read` call the fired callbacks are exactly: the
dispatched entries of the stream in order (frames in stream order,
messages within a frame in file order, entries within a
`GetListResponse` in list order), and for each entry the callbacks
given by `dispatchSpec` — root wildcards first, then deeper prefixes,
with callbacks registered under the same code firing in registration
order. -/
theorem Read_callback_order (data : List Nat) (t : Term)
    (regs : List (List Nat × Nat)) :
    (Read data t regs).1
      = (streamEntries data t).flatMap
          fun e => (dispatchSpec regs e.ObjName).map fun i => (i, e) := by
  unfold Read streamEntries
  cases regs with
  | nil =>
    rw [show mkOptions [] = none from rfl, ReadLoop_none_trace]
    have h : ∀ e : ListEntry,
        (dispatchSpec [] e.ObjName).map (fun i => (i, e)) = [] := by
      intro e
      simp [dispatchSpec]
    rw [flatMap_fun_congr _ h]
    simp
  | cons r rs =>
    rw [mkOptions_cons, ReadLoop_trace]
    exact flatMap_fun_congr _ fun e => by rw [call_buildOn]

/-! ## Claim C9: `ObjectName` is partial on short OBIS codes -/

/-- A well-formed frame payload whose single list entry has a 5-byte
`ObjName` (`[1,0,1,8,0]`). -/
def framePayloadShort : List Nat :=
  [0x76,
   0x01,
   0x62, 0x00,
   0x62, 0x00,
   0x72,
     0x63, 0x07, 0x01,
     0x77,
       0x01, 0x01, 0x01, 0x01,
       0x71,
         0x77,
           0x06, 1, 0, 1, 8, 0,
           0x01, 0x01,
           0x62, 0x1e,
           0x52, 0x00,
           0x62, 0x2a,
           0x01,
       0x01, 0x01,
   0x63, 0x00, 0x00,
   0x00,
   0x00, 0x00]

/-- The well-formed frame around `framePayloadShort`. -/
def frameShort : List Nat :=
  startSeq ++ framePayloadShort ++ (escSeq ++ [0x1a, 0x02, 0x00, 0x00])

/-- The list entry carried by `frameShort`: a 5-byte `ObjName`. -/
def entryShort : ListEntry :=
  { ObjName := [1, 0, 1, 8, 0], Unit := 30,
    Value := { Typ := 0x61, DataInt := 42 } }

/-- C9.  `ListEntry.ObjectName` (hence `String`) reads the first six
bytes of `ObjName` unconditionally, so for every entry whose `ObjName`
is shorter than 6 bytes the Go code panics with an index out of range
(modelled as `none`); and `Read` dispatches every entry whose `ObjName`
is merely non-empty, so an entry with a 5-byte `ObjName` does reach a
user callback. -/
theorem ObjectName_partial :
    (∀ le : ListEntry, le.ObjName.length < 6 → le.ObjectName = none) ∧
    (∃ le : ListEntry,
      Read frameShort .eof [([], 0)] = ([(0, le)], none) ∧
      le.ObjName.length = 5 ∧ le.ObjectName = none) := by
  constructor
  · intro le h
    obtain ⟨obj, st, vt, u, sc, v, vs⟩ := le
    rcases obj with _ | ⟨a, _ | ⟨b, _ | ⟨c, _ | ⟨d, _ | ⟨e, _ | ⟨f, tl⟩⟩⟩⟩⟩⟩ <;>
      first
        | rfl
        | (simp only [List.length_cons] at h; omega)
  · exact ⟨entryShort, by decide, by decide, rfl⟩

/-- Witness for C9: a 3-byte `ObjName` renders no object name (the Go
code would panic). -/
theorem ObjectName_partial_witness :
    ({ ObjName := [1, 2, 3] } : ListEntry).ObjectName = none :=
  ObjectName_partial.1 { ObjName := [1, 2, 3] } (by decide)

end Gosml
